import Mathlib

/-!
Verification of `recordings_io.py` (wave-recording input/output module).

The module is embedded shallowly:

* a single-channel sample buffer is a `List ℚ` (exact rationals stand in for
  the float values; the spec's "within floating-point tolerance" becomes exact
  equality over ℚ/ℝ);
* the loudness formula `10**(dB / 10)` uses real exponentiation, so the
  loudness-scaling stage lives in `ℝ`;
* numpy's runtime errors (e.g. `ValueError` from `np.zeros` of negative size,
  or a shape mismatch in slice assignment) are modelled with `Except PyErr`;
* Python/numpy slice semantics (negative index wrap-around, clamping,
  length-1 broadcasting on slice assignment) are modelled faithfully.
-/

namespace RecordingsIO

/-- Runtime errors that the numpy layer can raise during `write`.
The module itself defines and raises no exception of its own. -/
inductive PyErr where
  | valueError
deriving DecidableEq

/-- Largest element of a list, as computed by `np.max` on a 1-d array.
`np.max` of an empty array raises; here the empty case returns the junk
value `0` (all theorems that use it assume a non-empty input). -/
def npMax (xs : List ℚ) : ℚ :=
  xs.foldr max xs.headI

/-- Largest element of a list of reals (the scaled buffer). -/
noncomputable def npMaxR (xs : List ℝ) : ℝ :=
  xs.foldr max xs.headI

/-- Normalization performed by `read` (line 20 of the source):
`sample /= np.max(np.abs(sample), axis=0)`. For a 1-d array `axis=0` yields
the single global peak of the absolute values. Division by a zero peak cannot
raise in the code (numpy emits only a `RuntimeWarning` and yields NaN); it is
modelled with Lean's total division, where `x / 0 = 0`. -/
def normalize (sample : List ℚ) : List ℚ :=
  sample.map fun s : ℚ => s / npMax (sample.map fun t : ℚ => |t|)

/-- The pure part of `read` (lines 18-21): the wave decoder collaborator has
already produced `(rate, sample)`; `read` converts to float (identity on ℚ),
normalizes, and returns the pair with the rate untouched. -/
def read (rate : ℕ) (sample : List ℚ) : ℕ × List ℚ :=
  (rate, normalize sample)

/-- Python slice-endpoint normalization for a sequence of length `L`:
a negative index counts from the end (clamped below at 0), a non-negative
index is clamped above at `L`. -/
def sliceIdx (L : ℕ) (i : ℤ) : ℕ :=
  if i < 0 then ((L : ℤ) + i).toNat else min i.toNat L

/-- Python slice `xs[a:b]`. -/
def pySlice (xs : List ℚ) (a b : ℤ) : List ℚ :=
  (xs.drop (sliceIdx xs.length a)).take (sliceIdx xs.length b - sliceIdx xs.length a)

/-- numpy 1-d slice assignment `dst[c:d] = src`.  If the source length
matches the destination slice length the elements are copied; a length-1
source broadcasts; any other mismatch raises `ValueError`. -/
def sliceAssign (dst : List ℚ) (c d : ℤ) (src : List ℚ) : Except PyErr (List ℚ) :=
  if src.length = sliceIdx dst.length d - sliceIdx dst.length c then
    .ok (dst.take (sliceIdx dst.length c) ++ src
      ++ dst.drop (max (sliceIdx dst.length c) (sliceIdx dst.length d)))
  else
    match src with
    | [x] => .ok (dst.take (sliceIdx dst.length c)
        ++ List.replicate (sliceIdx dst.length d - sliceIdx dst.length c) x
        ++ dst.drop (max (sliceIdx dst.length c) (sliceIdx dst.length d)))
    | _ => .error .valueError

/-- The copy loop of `write` (lines 53-57): starting from `idx = 0`,
`new_sample[idx:idx+length] = sample[start:end]; idx += length`. -/
def copyLoop (sample : List ℚ) : List (ℤ × ℤ) → ℤ → List ℚ → Except PyErr (List ℚ)
  | [], _, acc => .ok acc
  | (s, e) :: rest, idx, acc =>
    match sliceAssign acc idx (idx + (e - s)) (pySlice sample s e) with
    | .ok acc2 => copyLoop sample rest (idx + (e - s)) acc2
    | .error err => .error err

/-- The segment-extraction stage of `write` (lines 50-58).  An empty segment
list (Python falsy) skips the stage entirely; otherwise
`total_length = sum(end - start)` and `np.zeros(total_length)` is filled by
the copy loop.  `np.zeros` of a negative size raises `ValueError`. -/
def extractStage (sample : List ℚ) (segments : List (ℤ × ℤ)) : Except PyErr (List ℚ) :=
  match segments with
  | [] => .ok sample
  | _ :: _ =>
    if ((segments.map fun p : ℤ × ℤ => p.2 - p.1).sum) < 0 then .error .valueError
    else copyLoop sample segments 0
      (List.replicate (((segments.map fun p : ℤ × ℤ => p.2 - p.1).sum).toNat) 0)

/-- Concatenation of the requested slices in list order (the intended result
of the extraction stage). -/
def segSlices (sample : List ℚ) : List (ℤ × ℤ) → List ℚ
  | [] => []
  | p :: rest => pySlice sample p.1 p.2 ++ segSlices sample rest

/-- A well-formed segment of a buffer of length `L`: `0 ≤ start ≤ end ≤ L`. -/
def validSeg (L : ℕ) (p : ℤ × ℤ) : Prop :=
  0 ≤ p.1 ∧ p.1 ≤ p.2 ∧ p.2 ≤ (L : ℤ)

instance (L : ℕ) (p : ℤ × ℤ) : Decidable (validSeg L p) := by
  unfold validSeg
  infer_instance

/-- The loudness factor `desired_dB_log = 10**(dB / 10)` (line 67). -/
noncomputable def desiredGain (dB : ℝ) : ℝ :=
  (10 : ℝ) ^ (dB / 10)

/-- The loudness-scaling stage of `write` (lines 66-68):
`max_sample = np.max(sample); sample *= desired_dB_log / max_sample`.
The peak is the signed maximum, not the absolute value. -/
noncomputable def scale_to_decibels (sample : List ℚ) (dB : ℝ) : List ℝ :=
  sample.map fun s : ℚ => (s : ℝ) * (desiredGain dB / ((npMax sample : ℚ) : ℝ))

/-- Truncation toward zero, the rounding used by a C-style float-to-integer
cast (`astype('int16')`, line 70). -/
noncomputable def truncZ (x : ℝ) : ℤ :=
  letI := Classical.propDecidable (0 ≤ x)
  if 0 ≤ x then ⌊x⌋ else ⌈x⌉

/-- numpy `astype('int16')` on a float sample: C-style truncation toward
zero followed by a two's-complement wrap of the low 16 bits (no
saturation/clipping). -/
noncomputable def toInt16 (x : ℝ) : ℤ :=
  (truncZ x + 32768) % 65536 - 32768

/-- The integer samples handed to the wave encoder by `write` (lines 50-70):
segment extraction, then loudness scaling, then conversion to int16. -/
noncomputable def writeSamples (sample : List ℚ) (dB : ℝ) (segments : List (ℤ × ℤ)) :
    Except PyErr (List ℤ) :=
  (extractStage sample segments).map fun s => (scale_to_decibels s dB).map toInt16

/-- Content of the caller's sample array after `write` returns.  With a
non-empty segment list, `sample = new_sample` rebinds the local name to a
fresh array, so the caller's array is only read.  With an empty segment list
the in-place `sample *= ...` (line 68) writes the scaled values into the
caller's own array. -/
noncomputable def write_callerBuffer (sample : List ℚ) (dB : ℝ) (segments : List (ℤ × ℤ)) :
    Except PyErr (List ℝ) :=
  match segments with
  | [] => .ok (scale_to_decibels sample dB)
  | _ :: _ => (extractStage sample segments).map fun _ => sample.map fun s : ℚ => (s : ℝ)

/-- Python `str.endswith`: a Python string is a sequence of characters and
`s.endswith(t)` holds exactly when `t` is a suffix of that sequence (the
comparison is case-sensitive). -/
def endswith (s t : String) : Bool :=
  t.data.isSuffixOf s.data

/-- `os.path.join dirpath filename` for the paths produced by the walk. -/
def joinPath (d f : String) : String :=
  d ++ "/" ++ f

/-- Entry list built by `Walker.__init__` (lines 81-88).  `isFileRoot` is the
filesystem collaborator's `os.path.isfile(recordings_location)`; `walk` is
the sequence of `(dirpath, dirnames, filenames)` triples produced by
`os.walk(recordings_location)` (empty when the root is a file or does not
exist). -/
def walkerEntries (isFileRoot : Bool) (root : String)
    (walk : List (String × List String × List String)) : List String :=
  (if isFileRoot && endswith root ".wav" then [root] else [])
    ++ walk.foldr
      (fun t acc => ((t.2.2.filter fun f => endswith f ".wav").map fun f => joinPath t.1 f) ++ acc)
      []

/-- The `Walker` object: its only state is the entry list built at
construction time. -/
structure Walker where
  _recordings : List String

/-- `Walker.__init__`. -/
def Walker.init (isFileRoot : Bool) (root : String)
    (walk : List (String × List String × List String)) : Walker :=
  ⟨walkerEntries isFileRoot root walk⟩

/-- `Walker.get_recordings_list` (line 117): returns the entry list. -/
def Walker.get_recordings_list (w : Walker) : List String :=
  w._recordings

/-- `Walker.count` (line 121): `len(self._recordings)`. -/
def Walker.count (w : Walker) : ℕ :=
  w._recordings.length

/-! ### Helper lemmas -/

theorem le_foldr_max {a : ℚ} (init : ℚ) (xs : List ℚ) (h : a ∈ xs) :
    a ≤ xs.foldr max init := by
  induction xs with
  | nil => cases h
  | cons x t ih =>
    rcases List.mem_cons.mp h with h1 | h2
    · subst h1
      exact le_max_left _ _
    · exact le_trans (ih h2) (le_max_right _ _)

theorem le_npMax_of_mem {a : ℚ} {xs : List ℚ} (h : a ∈ xs) : a ≤ npMax xs :=
  le_foldr_max xs.headI xs h

theorem foldr_max_div (c : ℚ) (hc : 0 < c) (init : ℚ) (ys : List ℚ) :
    (ys.map fun y => y / c).foldr max (init / c) = ys.foldr max init / c := by
  induction ys with
  | nil => rfl
  | cons y t ih =>
    simp only [List.map_cons, List.foldr_cons, ih]
    rcases le_total y (t.foldr max init) with h | h
    · rw [max_eq_right h, max_eq_right ((div_le_div_iff_of_pos_right hc).mpr h)]
    · rw [max_eq_left h, max_eq_left ((div_le_div_iff_of_pos_right hc).mpr h)]

theorem npMax_map_div (ys : List ℚ) (c : ℚ) (hc : 0 < c) :
    npMax (ys.map fun y => y / c) = npMax ys / c := by
  cases ys with
  | nil =>
    exact (zero_div c).symm
  | cons y t =>
    unfold npMax
    simp only [List.map_cons, List.headI]
    exact foldr_max_div c hc y (y :: t)

theorem desiredGain_thirty : desiredGain 30 = 1000 := by
  unfold desiredGain
  rw [show (30 : ℝ) / 10 = ((3 : ℕ) : ℝ) by norm_num, Real.rpow_natCast]
  norm_num

/-! ### Claims -/

/-- C6: the segment-extraction stage of `write` with an empty segment list is
the identity on the buffer: the Python `if segments:` guard is falsy, so
the very same buffer is passed on to the next pipeline stage (the sample
rate is a separate argument that the stage never touches). -/
theorem extract_empty_identity (sample : List ℚ) :
    extractStage sample [] = Except.ok sample := rfl

/-- C9: the `Walker`'s entry list is fixed at construction: every call to
`get_recordings_list` returns the one sequence built by `__init__`, and
`count` is the length of that sequence. -/
theorem walker_list_stable_and_count (isFileRoot : Bool) (root : String)
    (walk : List (String × List String × List String)) :
    (Walker.init isFileRoot root walk).get_recordings_list
        = walkerEntries isFileRoot root walk ∧
    (Walker.init isFileRoot root walk).count
        = (Walker.init isFileRoot root walk).get_recordings_list.length :=
  ⟨rfl, rfl⟩

/-- C2 (code evaluated at the failing input): on the all-zero buffer neither
the normalization in `read` nor the scaling stage of `write` raises anything;
both run to completion (the code divides by the zero peak, numpy merely
emits a warning and yields NaN/garbage values, modelled by Lean's total
division).  No `DegenerateSignalError` exists anywhere in the module. -/
theorem silent_buffer_raises_nothing :
    read 8000 [0, 0] = (8000, [0, 0]) ∧
    writeSamples [0, 0] 30 [] = Except.ok [0, 0] := by
  have h0 : scale_to_decibels [0, 0] 30 = [0, 0] := by
    simp [scale_to_decibels]
  have h1 : toInt16 0 = 0 := by
    unfold toInt16 truncZ
    rw [if_pos le_rfl]
    norm_num
  refine ⟨?_, ?_⟩
  · simp [read, normalize, zero_div]
  · simp [writeSamples, extractStage, Except.map, h0, h1]

/-- C4 (code evaluated at the failing inputs): `write` performs no segment
validation.  For `end < start` the failure is numpy's `ValueError` from
`np.zeros` of a negative size, not an `InvalidSegmentError` (no such error
exists in the module); for a negative start such as `(-1, 2)` on a length-2
buffer, Python wrap-around slicing plus numpy length-1 broadcasting silently
produce a garbage buffer `[2, 2, 2]`, no error is raised at all, and the
pipeline goes on to scale it and write an output file. -/
theorem malformed_segments_no_invalid_segment_error :
    extractStage [1, 2, 3] [(5, 3)] = Except.error PyErr.valueError ∧
    extractStage [1, 2] [(-1, 2)] = Except.ok [2, 2, 2] ∧
    writeSamples [1, 2] 30 [(-1, 2)] = Except.ok [1000, 1000, 1000] := by
  have hx : extractStage [1, 2] [(-1, 2)] = Except.ok [2, 2, 2] := rfl
  have h2 : npMax [2, 2, 2] = 2 := by decide
  have hs : scale_to_decibels [2, 2, 2] 30 = [1000, 1000, 1000] := by
    unfold scale_to_decibels
    rw [h2, desiredGain_thirty]
    simp only [List.map_cons, List.map_nil]
    push_cast
    norm_num
  have ht : toInt16 1000 = 1000 := by
    unfold toInt16 truncZ
    rw [if_pos (by norm_num), show ((1000 : ℝ)) = ((1000 : ℤ) : ℝ) by norm_num,
      Int.floor_intCast]
    decide
  refine ⟨rfl, hx, ?_⟩
  simp [writeSamples, Except.map, hx, hs, ht]

theorem foldr_max_mul (c : ℝ) (hc : 0 ≤ c) (init : ℚ) (ys : List ℚ) :
    (ys.map fun y : ℚ => (y : ℝ) * c).foldr max ((init : ℝ) * c)
      = ((ys.foldr max init : ℚ) : ℝ) * c := by
  induction ys with
  | nil => rfl
  | cons y t ih =>
    simp only [List.map_cons, List.foldr_cons, ih]
    rw [show ((max y (t.foldr max init) : ℚ) : ℝ)
        = max (y : ℝ) ((t.foldr max init : ℚ) : ℝ) from by push_cast; rfl]
    rcases le_total (y : ℝ) ((t.foldr max init : ℚ) : ℝ) with h | h
    · rw [max_eq_right h, max_eq_right (mul_le_mul_of_nonneg_right h hc)]
    · rw [max_eq_left h, max_eq_left (mul_le_mul_of_nonneg_right h hc)]

theorem npMaxR_map_mul (ys : List ℚ) (c : ℝ) (hc : 0 ≤ c) (hne : ys ≠ []) :
    npMaxR (ys.map fun y : ℚ => (y : ℝ) * c) = ((npMax ys : ℚ) : ℝ) * c := by
  obtain ⟨y, t, rfl⟩ := List.exists_cons_of_ne_nil hne
  unfold npMaxR npMax
  simp only [List.map_cons, List.headI]
  exact foldr_max_mul c hc y (y :: t)

/-- C1: `read` of a non-silent single-channel buffer keeps the sample rate
and divides every sample by the global peak absolute value, so the peak
absolute value of the returned buffer is exactly 1. -/
theorem read_normalizes_peak (rate : ℕ) (sample : List ℚ)
    (h : ∃ s ∈ sample, s ≠ 0) :
    (read rate sample).1 = rate ∧
    npMax (((read rate sample).2).map fun s : ℚ => |s|) = 1 := by
  obtain ⟨s, hs, hs0⟩ := h
  have habs : |s| ∈ sample.map fun t : ℚ => |t| := List.mem_map_of_mem _ hs
  have hpos : 0 < npMax (sample.map fun t : ℚ => |t|) :=
    lt_of_lt_of_le (abs_pos.mpr hs0) (le_npMax_of_mem habs)
  refine ⟨rfl, ?_⟩
  have hnorm : (read rate sample).2
      = sample.map fun t : ℚ => t / npMax (sample.map fun t : ℚ => |t|) := rfl
  rw [hnorm, List.map_map]
  have hfun : ((fun s : ℚ => |s|) ∘ fun t : ℚ => t / npMax (sample.map fun t : ℚ => |t|))
      = (fun y : ℚ => y / npMax (sample.map fun t : ℚ => |t|)) ∘ (fun t : ℚ => |t|) := by
    funext t
    simp only [Function.comp_apply]
    rw [abs_div, abs_of_pos hpos]
  rw [hfun, ← List.map_map, npMax_map_div _ _ hpos]
  exact div_self (ne_of_gt hpos)

/-- Witness for C1 at the concrete buffer `[1, -2]`. -/
theorem read_normalizes_peak_witness :
    (∃ s ∈ ([1, -2] : List ℚ), s ≠ 0) ∧
    ((read 8000 [1, -2]).1 = 8000 ∧
      npMax (((read 8000 [1, -2]).2).map fun s : ℚ => |s|) = 1) :=
  ⟨⟨-2, by decide, by decide⟩,
   read_normalizes_peak 8000 [1, -2] ⟨-2, by decide, by decide⟩⟩

/-- C5 (amended): for every buffer with a positive signed peak, the scaling
stage multiplies every sample by `gain = 10^(dB/10) / peak` and the scaled
signed peak equals `10^(dB/10)`.  (The claim as stated, for every nonzero
peak, is false: a buffer whose samples are all negative has a negative
signed peak and the negative gain flips the order, see the
counterexample.) -/
theorem scale_peak_of_pos (sample : List ℚ) (dB : ℝ) (h : 0 < npMax sample) :
    scale_to_decibels sample dB
        = sample.map (fun s : ℚ => (s : ℝ) * (desiredGain dB / ((npMax sample : ℚ) : ℝ))) ∧
    npMaxR (scale_to_decibels sample dB) = desiredGain dB := by
  have hne : sample ≠ [] := by
    intro h0
    rw [h0] at h
    exact absurd h (by decide)
  have hgain : 0 < desiredGain dB := by
    unfold desiredGain
    exact Real.rpow_pos_of_pos (by norm_num) _
  have hpR : (0 : ℝ) < ((npMax sample : ℚ) : ℝ) := by exact_mod_cast h
  refine ⟨rfl, ?_⟩
  rw [show scale_to_decibels sample dB
      = sample.map (fun s : ℚ => (s : ℝ) * (desiredGain dB / ((npMax sample : ℚ) : ℝ)))
      from rfl]
  rw [npMaxR_map_mul sample _ (le_of_lt (div_pos hgain hpR)) hne]
  rw [mul_comm, div_mul_cancel₀ _ (ne_of_gt hpR)]

/-- Witness for the amended C5: a normalized-like buffer `[1, 2]` scaled to
30 dB has scaled peak `10^3 = 1000`. -/
theorem scale_peak_of_pos_witness :
    npMaxR (scale_to_decibels [1, 2] 30) = 1000 := by
  have h := (scale_peak_of_pos [1, 2] 30 (by decide)).2
  rw [h, desiredGain_thirty]

/-- C5 counterexample: the buffer `[-2, -1]` has nonzero (negative) signed
peak `-1`, yet scaling it to 30 dB yields scaled peak 2000, not 1000: the
claim is false for merely nonzero peaks. -/
theorem scale_peak_negative_counterexample :
    npMax [-2, -1] ≠ 0 ∧
    npMaxR (scale_to_decibels [-2, -1] 30) ≠ 1000 := by
  have h1 : npMax [-2, -1] = -1 := by decide
  have hs : scale_to_decibels [-2, -1] 30 = [2000, 1000] := by
    unfold scale_to_decibels
    rw [h1, desiredGain_thirty]
    simp only [List.map_cons, List.map_nil]
    push_cast
    norm_num
  refine ⟨by decide, ?_⟩
  rw [hs]
  have h2 : npMaxR [2000, 1000] = 2000 := by
    show max 2000 (max 1000 (2000 : ℝ)) = 2000
    rw [max_eq_right (by norm_num : (1000 : ℝ) ≤ 2000), max_self]
  rw [h2]
  norm_num

/-- C7 (amended): when a non-empty segment list is supplied (and extraction
succeeds), the caller's input buffer is untouched — the extraction stage
copies into a fresh array and the in-place scaling hits only that copy. -/
theorem write_preserves_caller_with_segments (sample : List ℚ) (dB : ℝ)
    (p : ℤ × ℤ) (segs : List (ℤ × ℤ)) (out : List ℚ)
    (h : extractStage sample (p :: segs) = Except.ok out) :
    write_callerBuffer sample dB (p :: segs)
        = Except.ok (sample.map fun s : ℚ => (s : ℝ)) := by
  show (extractStage sample (p :: segs)).map _ = _
  rw [h]
  rfl

/-- Witness for the amended C7 at `sample = [1, 2]`, `segments = [(0, 1)]`. -/
theorem write_preserves_caller_with_segments_witness :
    write_callerBuffer [1, 2] 30 [(0, 1)] = Except.ok [(1 : ℝ), 2] := by
  have h := write_preserves_caller_with_segments [1, 2] 30 (0, 1) [] [1] rfl
  rw [h]
  norm_num

/-- C7 counterexample: with the default empty segment list, the in-place
`sample *= ...` of the scaling stage (line 68) writes the scaled values into
the caller's own array: after `write([1, 2], dB = 30)` the caller's buffer
holds `[500, 1000]`, not `[1, 2]`.  The write pipeline is therefore not
side-effect-free up to the final encode. -/
theorem write_mutates_caller_buffer :
    write_callerBuffer [1, 2] 30 [] = Except.ok [500, 1000] ∧
    write_callerBuffer [1, 2] 30 [] ≠ Except.ok [(1 : ℝ), 2] := by
  have h1 : npMax [1, 2] = 2 := by decide
  have hs : scale_to_decibels [1, 2] 30 = [500, 1000] := by
    unfold scale_to_decibels
    rw [h1, desiredGain_thirty]
    simp only [List.map_cons, List.map_nil]
    push_cast
    norm_num
  have hmain : write_callerBuffer [1, 2] 30 [] = Except.ok [500, 1000] := by
    show Except.ok (scale_to_decibels [1, 2] 30) = _
    rw [hs]
  refine ⟨hmain, ?_⟩
  rw [hmain]
  intro heq
  rw [Except.ok.injEq] at heq
  simp only [List.cons.injEq] at heq
  norm_num at heq

theorem mem_foldr_append {α β : Type} (g : β → List α) (l : List β) (p : α) :
    p ∈ l.foldr (fun t acc => g t ++ acc) [] ↔ ∃ t ∈ l, p ∈ g t := by
  induction l with
  | nil => simp
  | cons x t ih =>
    simp only [List.foldr_cons, List.mem_append, ih, List.mem_cons]
    constructor
    · rintro (hp | ⟨u, hu, hpu⟩)
      · exact ⟨x, Or.inl rfl, hp⟩
      · exact ⟨u, Or.inr hu, hpu⟩
    · rintro ⟨u, (rfl | hu), hpu⟩
      · exact Or.inl hpu
      · exact Or.inr ⟨u, hu, hpu⟩

/-- C8: the entry list built by `Walker.__init__` holds exactly the root
(when the filesystem says the root is a file and its name ends in the
lowercase `.wav`, the sole entry contributed by the first check) together
with every file reported by the walk whose name ends in `.wav` — the
matching is a case-sensitive suffix test, so any other name is excluded. -/
theorem walker_discovers_wav_files (isFileRoot : Bool) (root : String)
    (walk : List (String × List String × List String)) :
    (∀ p, p ∈ walkerEntries isFileRoot root walk ↔
        ((isFileRoot = true ∧ endswith root ".wav" = true ∧ p = root) ∨
          ∃ t ∈ walk, ∃ f ∈ t.2.2, endswith f ".wav" = true ∧ p = joinPath t.1 f)) ∧
    (isFileRoot = true → walk = [] →
        walkerEntries isFileRoot root walk
          = if endswith root ".wav" then [root] else []) := by
  constructor
  · intro p
    unfold walkerEntries
    rw [List.mem_append, mem_foldr_append]
    constructor
    · rintro (hif | ⟨t, ht, hp⟩)
      · left
        by_cases hb : (isFileRoot && endswith root ".wav") = true
        · rw [if_pos hb] at hif
          simp only [Bool.and_eq_true] at hb
          exact ⟨hb.1, hb.2, List.mem_singleton.mp hif⟩
        · rw [if_neg hb] at hif
          cases hif
      · right
        obtain ⟨f, hf, rfl⟩ := List.mem_map.mp hp
        obtain ⟨hf2, hf3⟩ := List.mem_filter.mp hf
        exact ⟨t, ht, f, hf2, hf3, rfl⟩
    · rintro (⟨h1, h2, rfl⟩ | ⟨t, ht, f, hf, hfw, rfl⟩)
      · left
        rw [if_pos (by rw [h1, h2]; rfl)]
        exact List.mem_cons_self _ _
      · right
        exact ⟨t, ht, List.mem_map_of_mem _ (List.mem_filter.mpr ⟨hf, hfw⟩)⟩
  · intro h1 h2
    subst h1
    subst h2
    cases hb : endswith root ".wav" <;> simp [walkerEntries, hb]

/-- Witness for C8: the spec's example layout (root directory `r` holding
`a.wav`, `c.txt` and `sub/b.wav`) discovers exactly the two wave files, and
a root that is itself a `.wav` file is the sole entry. -/
theorem walker_discovers_wav_files_witness :
    ("r/a.wav" ∈ walkerEntries false "r"
        [("r", [], ["a.wav", "c.txt"]), ("r/sub", [], ["b.wav"])]) ∧
    ("r/sub/b.wav" ∈ walkerEntries false "r"
        [("r", [], ["a.wav", "c.txt"]), ("r/sub", [], ["b.wav"])]) ∧
    ("r/c.txt" ∉ walkerEntries false "r"
        [("r", [], ["a.wav", "c.txt"]), ("r/sub", [], ["b.wav"])]) ∧
    walkerEntries true "a.wav" [] = ["a.wav"] := by
  refine ⟨by decide, by decide, by decide, ?_⟩
  have h := (walker_discovers_wav_files true "a.wav" []).2 rfl rfl
  rw [h, if_pos (by decide)]

/-- C10: the samples persisted by `write` are the scaled samples converted
by `astype('int16')`: truncation of the fractional part toward zero followed
by a two's-complement wrap into `[-32768, 32767]` — congruent to the
truncated value modulo `2^16`, never clamped, so an over-amplified value
such as 40000 wraps to the negative value -25536 instead of saturating at
32767 (and -3.5 truncates to -3, toward zero, not to the floor -4). -/
theorem write_quantization_wraps (sample : List ℚ) (dB : ℝ)
    (segments : List (ℤ × ℤ)) (out : List ℚ)
    (h : extractStage sample segments = Except.ok out) :
    writeSamples sample dB segments
        = Except.ok ((scale_to_decibels out dB).map toInt16) ∧
    (∀ x : ℝ, (-32768 ≤ toInt16 x ∧ toInt16 x ≤ 32767)
        ∧ toInt16 x % 65536 = truncZ x % 65536) ∧
    toInt16 40000 = -25536 ∧
    truncZ (-(7 / 2) : ℝ) = -3 := by
  refine ⟨?_, ?_, ?_, ?_⟩
  · show (extractStage sample segments).map _ = _
    rw [h]
    rfl
  · intro x
    unfold toInt16
    refine ⟨⟨?_, ?_⟩, ?_⟩ <;> omega
  · have ht : truncZ (40000 : ℝ) = 40000 := by
      unfold truncZ
      rw [if_pos (by norm_num), show ((40000 : ℝ)) = ((40000 : ℤ) : ℝ) by norm_num,
        Int.floor_intCast]
    unfold toInt16
    rw [ht]
    decide
  · unfold truncZ
    rw [if_neg (by norm_num), Int.ceil_eq_iff]
    norm_num

/-- Witness for C10 at `sample = [1, 2]`, no segments, `dB = 30`. -/
theorem write_quantization_wraps_witness :
    writeSamples [1, 2] 30 []
        = Except.ok ((scale_to_decibels [1, 2] 30).map toInt16) ∧
    toInt16 40000 = -25536 :=
  ⟨(write_quantization_wraps [1, 2] 30 [] [1, 2] rfl).1,
   (write_quantization_wraps [1, 2] 30 [] [1, 2] rfl).2.2.1⟩

theorem pySlice_of_valid (xs : List ℚ) (s e : ℤ) (h : validSeg xs.length (s, e)) :
    (pySlice xs s e).length = (e - s).toNat := by
  obtain ⟨h0, h1, h2⟩ := h
  unfold pySlice sliceIdx
  rw [if_neg (show ¬ s < 0 by omega), if_neg (show ¬ e < 0 by omega)]
  simp only [List.length_take, List.length_drop]
  omega

theorem sliceAssign_exact (pre mid tail src : List ℚ) (h : src.length = mid.length) :
    sliceAssign (pre ++ mid ++ tail) (pre.length : ℤ)
        ((pre.length : ℤ) + (mid.length : ℤ)) src
      = Except.ok (pre ++ src ++ tail) := by
  unfold sliceAssign sliceIdx
  have hL : (pre ++ mid ++ tail).length = pre.length + mid.length + tail.length := by
    rw [List.length_append, List.length_append]
  rw [hL]
  rw [if_neg (show ¬ ((pre.length : ℤ)) < 0 by omega),
      if_neg (show ¬ ((pre.length : ℤ) + (mid.length : ℤ)) < 0 by omega)]
  have hn1 : ((pre.length : ℤ)).toNat = pre.length := by omega
  have hn2 : (((pre.length : ℤ) + (mid.length : ℤ))).toNat = pre.length + mid.length := by
    omega
  rw [hn1, hn2]
  rw [min_eq_left (by omega), min_eq_left (by omega)]
  have hd : pre.length + mid.length - pre.length = mid.length := by omega
  rw [hd, if_pos h]
  have hm : max pre.length (pre.length + mid.length) = pre.length + mid.length := by omega
  rw [hm]
  have htake : (pre ++ mid ++ tail).take pre.length = pre := by
    rw [List.append_assoc, List.take_left]
  have hdrop : (pre ++ mid ++ tail).drop (pre.length + mid.length) = tail := by
    rw [show pre.length + mid.length = (pre ++ mid).length from (List.length_append _ _).symm,
      List.drop_left]
  rw [htake, hdrop]

theorem copyLoop_ok (sample : List ℚ) (segs : List (ℤ × ℤ)) :
    ∀ pre : List ℚ,
      (∀ p ∈ segs, validSeg sample.length p) →
      copyLoop sample segs (pre.length : ℤ)
          (pre ++ List.replicate (((segs.map fun p : ℤ × ℤ => p.2 - p.1).sum).toNat) 0)
        = Except.ok (pre ++ segSlices sample segs) := by
  induction segs with
  | nil =>
    intro pre _
    simp [copyLoop, segSlices]
  | cons q rest ih =>
    intro pre hv
    obtain ⟨s, e⟩ := q
    have hq : validSeg sample.length (s, e) := hv _ (List.mem_cons_self _ _)
    have hrest : ∀ p ∈ rest, validSeg sample.length p :=
      fun p hp => hv p (List.mem_cons_of_mem _ hp)
    have hlen : (pySlice sample s e).length = (e - s).toNat :=
      pySlice_of_valid sample s e hq
    obtain ⟨h0, h1, h2⟩ := hq
    have hsumnn : (0 : ℤ) ≤ (rest.map fun p : ℤ × ℤ => p.2 - p.1).sum := by
      apply List.sum_nonneg
      intro x hx
      obtain ⟨p, hp, rfl⟩ := List.mem_map.mp hx
      obtain ⟨u0, u1, u2⟩ := hrest p hp
      omega
    have htot : ((((s, e) :: rest).map fun p : ℤ × ℤ => p.2 - p.1).sum).toNat
        = (e - s).toNat + ((rest.map fun p : ℤ × ℤ => p.2 - p.1).sum).toNat := by
      simp only [List.map_cons, List.sum_cons]
      omega
    rw [htot, List.replicate_add, ← List.append_assoc]
    have hassign : sliceAssign
          ((pre ++ List.replicate ((e - s).toNat) 0)
            ++ List.replicate (((rest.map fun p : ℤ × ℤ => p.2 - p.1).sum).toNat) 0)
          (pre.length : ℤ) ((pre.length : ℤ) + (e - s)) (pySlice sample s e)
        = Except.ok ((pre ++ pySlice sample s e)
            ++ List.replicate (((rest.map fun p : ℤ × ℤ => p.2 - p.1).sum).toNat) 0) := by
      have hgen := sliceAssign_exact pre (List.replicate ((e - s).toNat) 0)
        (List.replicate (((rest.map fun p : ℤ × ℤ => p.2 - p.1).sum).toNat) 0)
        (pySlice sample s e) (by rw [hlen, List.length_replicate])
      rw [List.length_replicate] at hgen
      rw [show (((e - s).toNat : ℕ) : ℤ) = e - s by omega] at hgen
      exact hgen
    rw [copyLoop, hassign]
    have hidx : (pre.length : ℤ) + (e - s) = ((pre ++ pySlice sample s e).length : ℤ) := by
      rw [List.length_append, hlen]
      push_cast
      omega
    show copyLoop sample rest ((pre.length : ℤ) + (e - s))
        ((pre ++ pySlice sample s e)
          ++ List.replicate (((rest.map fun p : ℤ × ℤ => p.2 - p.1).sum).toNat) 0)
      = Except.ok (pre ++ segSlices sample ((s, e) :: rest))
    rw [hidx, ih (pre ++ pySlice sample s e) hrest, List.append_assoc]
    simp [segSlices]

theorem segSlices_length (sample : List ℚ) (segs : List (ℤ × ℤ)) :
    (∀ p ∈ segs, validSeg sample.length p) →
      ((segSlices sample segs).length : ℤ) = (segs.map fun p : ℤ × ℤ => p.2 - p.1).sum := by
  induction segs with
  | nil =>
    intro _
    simp [segSlices]
  | cons q rest ih =>
    intro hv
    obtain ⟨s, e⟩ := q
    have hq := hv _ (List.mem_cons_self _ _)
    have hlen := pySlice_of_valid sample s e hq
    have hrest : ∀ p ∈ rest, validSeg sample.length p :=
      fun p hp => hv p (List.mem_cons_of_mem _ hp)
    have ihh := ih hrest
    obtain ⟨h0, h1, h2⟩ := hq
    simp only [segSlices, List.length_append, List.map_cons, List.sum_cons, hlen]
    push_cast
    omega

/-- C3: on any non-empty list of well-formed segments, the extraction stage
of `write` succeeds and produces exactly the dense concatenation of the
slices `b[start:end]` in list order, whose length is `Σ (end - start)`. -/
theorem extract_concat_of_valid (sample : List ℚ) (segments : List (ℤ × ℤ))
    (hne : segments ≠ [])
    (hv : ∀ p ∈ segments, validSeg sample.length p) :
    extractStage sample segments = Except.ok (segSlices sample segments) ∧
    ((segSlices sample segments).length : ℤ) = (segments.map fun p : ℤ × ℤ => p.2 - p.1).sum := by
  refine ⟨?_, segSlices_length sample segments hv⟩
  obtain ⟨q, rest, rfl⟩ := List.exists_cons_of_ne_nil hne
  have hsumnn : (0 : ℤ) ≤ ((q :: rest).map fun p : ℤ × ℤ => p.2 - p.1).sum := by
    apply List.sum_nonneg
    intro x hx
    obtain ⟨p, hp, rfl⟩ := List.mem_map.mp hx
    obtain ⟨u0, u1, u2⟩ := hv p hp
    omega
  show (if ((q :: rest).map fun p : ℤ × ℤ => p.2 - p.1).sum < 0 then Except.error PyErr.valueError
      else copyLoop sample (q :: rest) 0
        (List.replicate ((((q :: rest).map fun p : ℤ × ℤ => p.2 - p.1).sum).toNat) 0))
    = Except.ok (segSlices sample (q :: rest))
  rw [if_neg (by omega)]
  have h := copyLoop_ok sample (q :: rest) [] hv
  simpa using h

/-- Witness for C3 at the spec's example: a buffer of length 8 with
segments `[(0,3), (5,8)]` extracts to `b[0:3] ++ b[5:8]` of length 6. -/
theorem extract_concat_of_valid_witness :
    extractStage [10, 11, 12, 13, 14, 15, 16, 17] [(0, 3), (5, 8)]
        = Except.ok (segSlices [10, 11, 12, 13, 14, 15, 16, 17] [(0, 3), (5, 8)]) ∧
    ((segSlices [10, 11, 12, 13, 14, 15, 16, 17] [(0, 3), (5, 8)]).length : ℤ)
        = ([((0 : ℤ), (3 : ℤ)), (5, 8)].map fun p : ℤ × ℤ => p.2 - p.1).sum :=
  extract_concat_of_valid [10, 11, 12, 13, 14, 15, 16, 17] [(0, 3), (5, 8)]
    (by decide) (by decide)

end RecordingsIO
